import Mathlib

/-!
# Verification of the Slurmer live file-tailing engine

Shallow embedding of `src/utils/fw.rs` (the developed version of the
file-watching subsystem: `FileReader`, `FileWatcher`, `FileWatcherHandle`)
together with proofs of the claims the specification makes about it.

Modelling conventions:
* File contents and strings are byte lists (`List Nat`, each element < 256 in
  all inputs of interest).  The Rust `split` and `replace` calls of the
  normalization step act on chars, but newline (0x0A) and carriage return
  (0x0D) are ASCII and no UTF-8 continuation byte equals them, so the
  byte-level operations below coincide with the char-level ones on the
  valid-UTF-8 strings the code handles.
* The state of the watched file at one update pass is `Option (List Nat)`:
  `none` means `File::open` fails, `some bytes` means the file is accessible
  with exactly those bytes.
* `io::Result` failures carry no model-relevant data, so fallible operations
  return `Except Unit _`.
-/

namespace Slurmer

/-- Structure `FileContent` from fw.rs: the processed text of one delta and
the truncation flag. -/
structure FileContent where
  content : List Nat
  is_truncated : Bool
  deriving DecidableEq, Repr

/-- Validity of a byte sequence as UTF-8, as required by the Rust
`Read::read_to_string` (which fails with `InvalidData` on any invalid
sequence).  This is the standard UTF-8 well-formedness table: ASCII,
2-byte `C2..DF`, 3-byte with the `E0`/`ED` restrictions (no overlongs, no
surrogates), 4-byte with the `F0`/`F4` restrictions (no overlongs, max
`U+10FFFF`). -/
def validUtf8 : List Nat → Bool
  | [] => true
  | b :: rest =>
    if b < 0x80 then validUtf8 rest
    else if 0xC2 ≤ b ∧ b ≤ 0xDF then
      match rest with
      | c1 :: r => (0x80 ≤ c1 && c1 ≤ 0xBF) && validUtf8 r
      | [] => false
    else if b = 0xE0 then
      match rest with
      | c1 :: c2 :: r =>
        (0xA0 ≤ c1 && c1 ≤ 0xBF) && ((0x80 ≤ c2 && c2 ≤ 0xBF) && validUtf8 r)
      | _ => false
    else if (0xE1 ≤ b ∧ b ≤ 0xEC) ∨ (0xEE ≤ b ∧ b ≤ 0xEF) then
      match rest with
      | c1 :: c2 :: r =>
        (0x80 ≤ c1 && c1 ≤ 0xBF) && ((0x80 ≤ c2 && c2 ≤ 0xBF) && validUtf8 r)
      | _ => false
    else if b = 0xED then
      match rest with
      | c1 :: c2 :: r =>
        (0x80 ≤ c1 && c1 ≤ 0x9F) && ((0x80 ≤ c2 && c2 ≤ 0xBF) && validUtf8 r)
      | _ => false
    else if b = 0xF0 then
      match rest with
      | c1 :: c2 :: c3 :: r =>
        (0x90 ≤ c1 && c1 ≤ 0xBF) && ((0x80 ≤ c2 && c2 ≤ 0xBF) &&
          ((0x80 ≤ c3 && c3 ≤ 0xBF) && validUtf8 r))
      | _ => false
    else if 0xF1 ≤ b ∧ b ≤ 0xF3 then
      match rest with
      | c1 :: c2 :: c3 :: r =>
        (0x80 ≤ c1 && c1 ≤ 0xBF) && ((0x80 ≤ c2 && c2 ≤ 0xBF) &&
          ((0x80 ≤ c3 && c3 ≤ 0xBF) && validUtf8 r))
      | _ => false
    else if b = 0xF4 then
      match rest with
      | c1 :: c2 :: c3 :: r =>
        (0x80 ≤ c1 && c1 ≤ 0x8F) && ((0x80 ≤ c2 && c2 ≤ 0xBF) &&
          ((0x80 ≤ c3 && c3 ≤ 0xBF) && validUtf8 r))
      | _ => false
    else false

/-- The Rust string method `split` at the newline char: split a byte string
at every 0x0A byte; n newlines yield n + 1 pieces, empty pieces included. -/
def splitNewline (bs : List Nat) : List (List Nat) :=
  match bs with
  | [] => [[]]
  | b :: rest =>
    let tail := splitNewline rest
    if b = 10 then [] :: tail
    else
      match tail with
      | first :: others => (b :: first) :: others
      | [] => [[b]]

/-- The Rust `Vec::join` with a newline separator: interleave the pieces
with single 0x0A bytes. -/
def joinNewline : List (List Nat) → List Nat
  | [] => []
  | [l] => l
  | l :: rest => l ++ 10 :: joinNewline rest

/-- The carriage-return handling step of `FileReader::update` (fw.rs lines
318-323): split the raw text on newline, replace every carriage return of
each line by the empty string, and join the lines back with newline.  The
per-line `replace` deletes every 0x0D byte of the line. -/
def processContent (raw : List Nat) : List Nat :=
  joinNewline ((splitNewline raw).map (fun line => line.filter (fun b => b ≠ 13)))

/-- The state of the watched file as observed by one pass: `none` when
`File::open` fails, `some bytes` when the file holds exactly `bytes`. -/
abbrev FileState := Option (List Nat)

instance instDecidableEqExcept {ε α : Type} [DecidableEq ε] [DecidableEq α] :
    DecidableEq (Except ε α) := fun x y =>
  match x, y with
  | Except.ok a, Except.ok b =>
    if h : a = b then Decidable.isTrue (congrArg Except.ok h)
    else Decidable.isFalse (fun he => h (Except.ok.inj he))
  | Except.error e, Except.error f =>
    if h : e = f then Decidable.isTrue (congrArg Except.error h)
    else Decidable.isFalse (fun he => h (Except.error.inj he))
  | Except.ok _, Except.error _ => Decidable.isFalse (fun he => Except.noConfusion he)
  | Except.error _, Except.ok _ => Decidable.isFalse (fun he => Except.noConfusion he)

/-- Structure `FileReader` from fw.rs, the fields relevant to the read semantics:
the retained `content` buffer and the byte cursor `pos`.  The channel
endpoints, path and interval carry no read semantics and are external to
the per-pass state. -/
structure FileReader where
  content : List Nat
  pos : Nat
  deriving DecidableEq, Repr

/-- Constructor `FileReader::new` (fw.rs lines 243-267): stat the target; when the open
and the metadata call succeed, start the cursor at the current size of the file;
on either failure start at zero.  (Both failure arms of the source, `Err(_)`
on open and `Err(_)` on metadata, give `pos = 0`; an accessible file is
`some bytes`.) -/
def FileReader.new (file : FileState) : FileReader :=
  { content := []
    pos := match file with
           | some bytes => bytes.length
           | none => 0 }

/-- Method `FileReader::update` (fw.rs lines 290-342) as a function of the reader
state and the file state observed by this pass.  Returns the new reader
state and the value sent on the content channel: `Except.ok` is a delta,
`Except.error ()` an `io::Error`.

Mirrors the source step by step:
* `self.content.clear()` happens before the open, so the buffer is empty on
  every error path;
* `is_truncated := metadata.len() < self.pos`; on truncation `self.pos = 0`;
* `seek(Start(pos))` succeeds and returns `pos` (after the truncation check
  `pos ≤ len` always holds);
* `read_to_string` reads the bytes from `pos` to the end; it fails iff they
  are not valid UTF-8, in which case `pos` keeps the sought position and the
  error is sent; on success `self.pos += bytes_read`;
* the raw text is `\r`-processed (`processContent`) and sent with the flag. -/
def FileReader.update (r : FileReader) (file : FileState) :
    FileReader × Except Unit FileContent :=
  match file with
  | none => ({ r with content := [] }, Except.error ())
  | some bytes =>
    let is_truncated : Bool := decide (bytes.length < r.pos)
    let pos0 := if is_truncated then 0 else r.pos
    let raw := bytes.drop pos0
    if validUtf8 raw then
      let processed := processContent raw
      ({ content := processed, pos := pos0 + raw.length },
        Except.ok { content := processed, is_truncated := is_truncated })
    else
      ({ content := [], pos := pos0 }, Except.error ())

/-- The sequence of values a `FileReader` sends over a run of consecutive
update passes, one per element of `files` (the file state observed at each
pass).  `FileReader::run` (fw.rs lines 269-288) performs the first pass
unconditionally on entry and one further pass per wake (signal or
poll-interval timeout); an `io::Error` result never ends the loop, so every
pass contributes exactly one sent value. -/
def readerTrace (r : FileReader) (files : List FileState) :
    List (Except Unit FileContent) :=
  match files with
  | [] => []
  | f :: fs =>
    let step := r.update f
    step.2 :: readerTrace step.1 fs

/-- Method `FileReader::run`: the initial pass on `f0` happens immediately on
thread start, before the loop blocks on any wake; each element of `wakes`
is one later wake (notification or timeout) with the file state it
observes. -/
def readerRun (r : FileReader) (f0 : FileState) (wakes : List FileState) :
    List (Except Unit FileContent) :=
  readerTrace r (f0 :: wakes)

/-- Control message `FileWatcherMessage` from fw.rs: the single variant
carries the optional new watch target.  Paths are modelled as strings
(equality of `PathBuf` values built from strings is string equality). -/
inductive FileWatcherMessage where
  | FilePath (p : Option String)
  deriving DecidableEq, Repr

/-- Structure `FileWatcherHandle` from fw.rs: the client-side handle,
remembering the last requested path.  The channel sender is modelled by
returning the list of messages the call sends. -/
structure FileWatcherHandle where
  file_path : Option String
  deriving DecidableEq, Repr

/-- Method `FileWatcherHandle::set_file_path` (fw.rs lines 70-77, identical
logic in file_watcher.rs lines 177-184): when the requested value equals
the remembered one, nothing happens; otherwise the remembered value is
updated and one `FilePath` message is sent to the watcher. -/
def FileWatcherHandle.set_file_path (h : FileWatcherHandle)
    (file_path : Option String) : FileWatcherHandle × List FileWatcherMessage :=
  if h.file_path = file_path then (h, [])
  else ({ file_path := file_path }, [FileWatcherMessage.FilePath file_path])

/-- One value the engine delivers on its downstream (app-facing) channel:
either a forwarded content delta or a subscription (`notify`) error.
Readers sending `io::Error` values are covered by `readerTrace`; this type
covers what `FileWatcher::run` itself emits while handling one control
message. -/
inductive DownstreamMsg where
  | delta (c : FileContent)
  | watcherError
  deriving DecidableEq, Repr

/-- Structure `FileWatcher` from fw.rs, the field relevant to control-message
handling: the currently watched path. -/
structure FileWatcher where
  file_path : Option String
  deriving DecidableEq, Repr

/-- The `FileWatcherMessage::FilePath` arm of the select loop of
`FileWatcher::run` (fw.rs lines 139-204), as a function of the watcher
state, the outcomes of the OS-level unwatch and watch calls (external
capabilities, passed as oracles), and the requested path.  Returns the new
state, the values that reach the downstream channel while handling this
message, and the paths for which a new `FileReader` thread is spawned.

Mirrors the source: the wake and content channels are replaced (retiring
the previous reader); if a previous path was watched it is unwatched, a
failure emitting a subscription error; a `Some(p)` request attempts an OS
watch on `p` — on success the reader for `p` is spawned, on failure a
subscription error is emitted and no path stays active; a `None` request
sends the neutral empty delta on the fresh content channel, which the same
loop then forwards downstream (fw.rs lines 217-227). -/
def FileWatcher.handleFilePath (st : FileWatcher) (unwatchOk : String → Bool)
    (watchOk : String → Bool) (msg : Option String) :
    FileWatcher × List DownstreamMsg × List String :=
  let unwatchErrs : List DownstreamMsg :=
    match st.file_path with
    | some p => if unwatchOk p then [] else [DownstreamMsg.watcherError]
    | none => []
  match msg with
  | some p =>
    if watchOk p then
      ({ file_path := some p }, unwatchErrs, [p])
    else
      ({ file_path := none }, unwatchErrs ++ [DownstreamMsg.watcherError], [])
  | none =>
    ({ file_path := none },
      unwatchErrs ++ [DownstreamMsg.delta { content := [], is_truncated := false }], [])

/-- Modelled from the spec (section 4.3 step 4 and P5), for comparison with
the implemented `processContent`: for one line, discard everything
preceding the last carriage return of the line. -/
def afterLastCR (line : List Nat) : List Nat :=
  line.foldl (fun acc b => if b = 13 then [] else acc ++ [b]) []

/-- Modelled from the spec (section 4.3 step 4): split on newline, keep
only what follows the last carriage return of each line, rejoin with
newline.  This is the normalization the spec describes, to be compared
with the `processContent` the code implements. -/
def specNormalize (raw : List Nat) : List Nat :=
  joinNewline ((splitNewline raw).map afterLastCR)

/-- A growth-only evolution of the watched file: each successive content
extends the previous one (the file is only appended to, never truncated
or rewritten). -/
def chainExtends (prev : List Nat) : List (List Nat) → Bool
  | [] => true
  | c :: rest => prev.isPrefixOf c && chainExtends c rest

/-- The values a reader whose cursor sits at offset `prevLen` — the end of
the content captured by its previous successful read — sends along a
growth-only evolution: a pass whose bytes appended since the previous
successful read are valid UTF-8 emits exactly those bytes (normalized,
never truncated) and moves the cursor to the end of the observed content;
a pass whose appended bytes are not (yet) valid UTF-8 emits an I/O error
and leaves the cursor at the previous successful read. -/
def growthDeltas (prevLen : Nat) : List (List Nat) → List (Except Unit FileContent)
  | [] => []
  | c :: rest =>
    if validUtf8 (c.drop prevLen) = true then
      Except.ok { content := processContent (c.drop prevLen), is_truncated := false } ::
        growthDeltas c.length rest
    else
      Except.error () :: growthDeltas prevLen rest

/-- The byte string of the P5 test input: the text `progress 1%`, a
carriage return, `progress 50%`, a carriage return, `progress 100%`, a
newline. -/
def crInput : List Nat :=
  [112, 114, 111, 103, 114, 101, 115, 115, 32, 49, 37, 13,
   112, 114, 111, 103, 114, 101, 115, 115, 32, 53, 48, 37, 13,
   112, 114, 111, 103, 114, 101, 115, 115, 32, 49, 48, 48, 37, 10]

theorem processContent_nil : processContent [] = [] := rfl

theorem splitNewline_ne_nil (bs : List Nat) : splitNewline bs ≠ [] := by
  cases bs with
  | nil => simp [splitNewline]
  | cons b rest =>
    unfold splitNewline
    by_cases hb : b = 10
    · simp [hb]
    · simp only [if_neg hb]
      cases splitNewline rest <;> simp

theorem joinNewline_cons_head (a : Nat) (xs : List Nat) (l : List (List Nat)) :
    joinNewline ((a :: xs) :: l) = a :: joinNewline (xs :: l) := by
  cases l <;> simp [joinNewline]

theorem joinNewline_splitNewline_filter (p : Nat → Bool) (hp : p 10 = true)
    (bs : List Nat) :
    joinNewline ((splitNewline bs).map (fun l => l.filter p)) = bs.filter p := by
  induction bs with
  | nil => simp [splitNewline, joinNewline]
  | cons b rest ih =>
    obtain ⟨f, o, hfo⟩ : ∃ f o, splitNewline rest = f :: o := by
      cases h : splitNewline rest with
      | nil => exact absurd h (splitNewline_ne_nil rest)
      | cons f o => exact ⟨f, o, rfl⟩
    by_cases hb : b = 10
    · subst hb
      have h1 : splitNewline (10 :: rest) = [] :: splitNewline rest := by
        simp [splitNewline]
      rw [h1, List.map_cons, List.filter_nil]
      have h2 : joinNewline ([] :: (splitNewline rest).map (fun l => l.filter p)) =
          10 :: joinNewline ((splitNewline rest).map (fun l => l.filter p)) := by
        rw [hfo, List.map_cons]
        simp [joinNewline]
      rw [h2, ih, List.filter_cons_of_pos hp]
    · have h1 : splitNewline (b :: rest) = (b :: f) :: o := by
        unfold splitNewline
        rw [if_neg hb, hfo]
      rw [h1, List.map_cons]
      by_cases hpb : p b = true
      · rw [List.filter_cons_of_pos hpb, joinNewline_cons_head]
        have : (f.filter p) :: o.map (fun l => l.filter p) =
            (splitNewline rest).map (fun l => l.filter p) := by
          rw [hfo, List.map_cons]
        rw [this, ih, List.filter_cons_of_pos hpb]
      · rw [List.filter_cons_of_neg (by simpa using hpb)]
        have : (f.filter p) :: o.map (fun l => l.filter p) =
            (splitNewline rest).map (fun l => l.filter p) := by
          rw [hfo, List.map_cons]
        rw [this, ih, List.filter_cons_of_neg (by simpa using hpb)]

theorem processContent_eq_filter (raw : List Nat) :
    processContent raw = raw.filter (fun b => b ≠ 13) := by
  exact joinNewline_splitNewline_filter (fun b => decide (b ≠ 13)) (by decide) raw

theorem update_eq_of_not_trunc (r : FileReader) (c : List Nat)
    (hpos : r.pos ≤ c.length) (hv : validUtf8 (c.drop r.pos) = true) :
    r.update (some c) =
      ({ content := processContent (c.drop r.pos),
         pos := r.pos + (c.drop r.pos).length },
       Except.ok { content := processContent (c.drop r.pos), is_truncated := false }) := by
  have hlt : ¬ c.length < r.pos := Nat.not_lt.mpr hpos
  simp [FileReader.update, hlt, hv]

theorem update_eq_of_not_trunc_invalid (r : FileReader) (c : List Nat)
    (hpos : r.pos ≤ c.length) (hv : validUtf8 (c.drop r.pos) = false) :
    r.update (some c) = ({ content := [], pos := r.pos }, Except.error ()) := by
  have hlt : ¬ c.length < r.pos := Nat.not_lt.mpr hpos
  simp [FileReader.update, hlt, hv]

theorem update_eq_of_trunc (r : FileReader) (c : List Nat)
    (hlt : c.length < r.pos) (hv : validUtf8 c = true) :
    r.update (some c) =
      ({ content := processContent c, pos := c.length },
       Except.ok { content := processContent c, is_truncated := true }) := by
  simp [FileReader.update, hlt, hv]

theorem readerTrace_length (files : List FileState) :
    ∀ r : FileReader, (readerTrace r files).length = files.length := by
  induction files with
  | nil => intro r; rfl
  | cons f fs ih => intro r; simp [readerTrace, ih]

theorem readerTrace_replicate_none (n : Nat) :
    ∀ r : FileReader, readerTrace r (List.replicate n none) =
      List.replicate n (Except.error ()) := by
  induction n with
  | zero => intro r; rfl
  | succ k ih =>
    intro r
    simp only [List.replicate_succ, readerTrace]
    exact congrArg _ (ih _)

theorem chainExtends_mono (prev c : List Nat) (rest : List (List Nat))
    (hpc : prev.isPrefixOf c = true) (hc : chainExtends c rest = true) :
    chainExtends prev rest = true := by
  cases rest with
  | nil => rfl
  | cons d rest2 =>
    simp only [chainExtends, Bool.and_eq_true] at hc ⊢
    refine ⟨?_, hc.2⟩
    exact List.isPrefixOf_iff_prefix.mpr
      ((List.isPrefixOf_iff_prefix.mp hpc).trans (List.isPrefixOf_iff_prefix.mp hc.1))

theorem readerTrace_growth (cs : List (List Nat)) :
    ∀ (prev : List Nat) (r : FileReader), r.pos = prev.length →
      chainExtends prev cs = true →
      readerTrace r (cs.map some) = growthDeltas prev.length cs := by
  induction cs with
  | nil => intro prev r _ _; rfl
  | cons c rest ih =>
    intro prev r hr hchain
    simp only [chainExtends, Bool.and_eq_true] at hchain
    have hpre : prev.length ≤ c.length :=
      (List.isPrefixOf_iff_prefix.mp hchain.1).length_le
    have hpos : r.pos ≤ c.length := by rw [hr]; exact hpre
    rw [← hr]
    by_cases hv : validUtf8 (c.drop r.pos) = true
    · have hstep := update_eq_of_not_trunc r c hpos hv
      have hlen : r.pos + (c.drop r.pos).length = c.length := by
        rw [List.length_drop]
        exact Nat.add_sub_cancel' hpos
      have hgd : growthDeltas r.pos (c :: rest) =
          Except.ok { content := processContent (c.drop r.pos),
                      is_truncated := false } :: growthDeltas c.length rest := by
        simp only [growthDeltas]
        rw [if_pos hv]
      rw [hgd]
      calc readerTrace r ((c :: rest).map some)
          = (r.update (some c)).2 :: readerTrace (r.update (some c)).1 (rest.map some) := rfl
        _ = Except.ok { content := processContent (c.drop r.pos),
                        is_truncated := false } ::
              readerTrace { content := processContent (c.drop r.pos),
                            pos := r.pos + (c.drop r.pos).length } (rest.map some) := by
              rw [hstep]
        _ = Except.ok { content := processContent (c.drop r.pos),
                        is_truncated := false } :: growthDeltas c.length rest := by
              rw [ih c _ hlen hchain.2]
    · have hvf : validUtf8 (c.drop r.pos) = false := by simpa using hv
      have hstep := update_eq_of_not_trunc_invalid r c hpos hvf
      have hchain2 : chainExtends prev rest = true :=
        chainExtends_mono prev c rest hchain.1 hchain.2
      have hgd : growthDeltas r.pos (c :: rest) =
          Except.error () :: growthDeltas r.pos rest := by
        simp only [growthDeltas]
        rw [if_neg (by simp [hvf])]
      rw [hgd]
      calc readerTrace r ((c :: rest).map some)
          = (r.update (some c)).2 :: readerTrace (r.update (some c)).1 (rest.map some) := rfl
        _ = Except.error () ::
              readerTrace { content := [], pos := r.pos } (rest.map some) := by
              rw [hstep]
        _ = Except.error () :: growthDeltas prev.length rest := by
              rw [ih prev { content := [], pos := r.pos } hr hchain2]
        _ = Except.error () :: growthDeltas r.pos rest := by rw [hr]

theorem growthDeltas_ok_mem (N : Nat) (cs : List (List Nat)) :
    ∀ (prev : List Nat), chainExtends prev cs = true → N ≤ prev.length →
      ∀ d : FileContent, Except.ok d ∈ growthDeltas prev.length cs →
        d.is_truncated = false ∧
        ∃ c m, c ∈ cs ∧ N ≤ m ∧ m ≤ c.length ∧
          d.content = processContent (c.drop m) := by
  induction cs with
  | nil =>
    intro prev _ _ d hd
    simp [growthDeltas] at hd
  | cons c rest ih =>
    intro prev hchain hN d hd
    simp only [chainExtends, Bool.and_eq_true] at hchain
    have hpre : prev.length ≤ c.length :=
      (List.isPrefixOf_iff_prefix.mp hchain.1).length_le
    by_cases hv : validUtf8 (c.drop prev.length) = true
    · have hgd : growthDeltas prev.length (c :: rest) =
          Except.ok { content := processContent (c.drop prev.length),
                      is_truncated := false } :: growthDeltas c.length rest := by
        simp only [growthDeltas]
        rw [if_pos hv]
      rw [hgd] at hd
      rcases List.mem_cons.mp hd with heq | hmem
      · have hdd : d = { content := processContent (c.drop prev.length),
                         is_truncated := false } := Except.ok.inj heq
        subst hdd
        exact ⟨rfl, c, prev.length, List.mem_cons_self c rest, hN, hpre, rfl⟩
      · obtain ⟨h1, cc, m, hmem2, h2, h3, h4⟩ :=
          ih c hchain.2 (le_trans hN hpre) d hmem
        exact ⟨h1, cc, m, List.mem_cons_of_mem c hmem2, h2, h3, h4⟩
    · have hvf : validUtf8 (c.drop prev.length) = false := by simpa using hv
      have hgd : growthDeltas prev.length (c :: rest) =
          Except.error () :: growthDeltas prev.length rest := by
        simp only [growthDeltas]
        rw [if_neg (by simp [hvf])]
      rw [hgd] at hd
      rcases List.mem_cons.mp hd with heq | hmem
      · exact Except.noConfusion heq
      · obtain ⟨h1, cc, m, hmem2, h2, h3, h4⟩ :=
          ih prev (chainExtends_mono prev c rest hchain.1 hchain.2) hN d hmem
        exact ⟨h1, cc, m, List.mem_cons_of_mem c hmem2, h2, h3, h4⟩

/-- C1 (counterexample): the claim says the normalization step discards
everything preceding the last carriage return of each line, so that the
P5 input yields exactly the line `progress 100%`.  On the P5 input the
implemented update pass emits the whole text with the carriage returns
merely deleted, which differs from the spec-described normalization
(`specNormalize`), whose result on that input would indeed be the single
line `progress 100%` and a trailing newline. -/
theorem cr_collapse_counterexample :
    (FileReader.update (FileReader.new (some [])) (some crInput)).2 =
      Except.ok { content := crInput.filter (fun b => b ≠ 13), is_truncated := false } ∧
    specNormalize crInput =
      [112, 114, 111, 103, 114, 101, 115, 115, 32, 49, 48, 48, 37, 10] ∧
    crInput.filter (fun b => b ≠ 13) ≠
      [112, 114, 111, 103, 114, 101, 115, 115, 32, 49, 48, 48, 37, 10] := by
  decide

/-- C1 (amended): the normalization step splits the raw text on newline and
deletes every carriage return of each line, keeping all the text before
them (equivalently, it deletes every 0x0D byte); the P5 input therefore
yields the single line `progress 1%progress 50%progress 100%`, not
`progress 100%`. -/
theorem cr_removal_amended :
    (∀ raw : List Nat, processContent raw = raw.filter (fun b => b ≠ 13)) ∧
    (FileReader.update (FileReader.new (some [])) (some crInput)).2 =
      Except.ok { content := crInput.filter (fun b => b ≠ 13), is_truncated := false } := by
  exact ⟨processContent_eq_filter, by decide⟩

/-- C2 (counterexample): a reader created against the two-byte file `ab`
(cursor 2) observes the file truncated to its one-byte prefix `a`; the
second delta it emits has the byte `a` as its text — one of the first N
bytes of the original file, and not a byte appended since the previous
read (nothing was ever appended). -/
theorem no_replay_counterexample :
    (FileReader.new (some [97, 98])).pos = 2 ∧
    readerTrace (FileReader.new (some [97, 98])) [some [97, 98], some [97]] =
      [Except.ok { content := [], is_truncated := false },
       Except.ok { content := [97], is_truncated := true }] ∧
    List.isPrefixOf [97] [97, 98] = true := by
  decide

/-- C2 (amended): provided the file is never truncated — every observed
content extends the previously observed one, the first observed content
extending the construction-time content — a reader constructed against an
accessible file of size N sets its cursor to N, and its run sends exactly
`growthDeltas`: any pass whose bytes appended since the previous
successful read are valid UTF-8 emits exactly those bytes (normalized)
and any other pass emits an I/O error, leaving the cursor at the previous
successful read.  Consequently every delta it emits is untruncated and
its text is the normalization of the bytes of an observed content from an
offset at least N: none of the first N bytes, only bytes appended since
the previous successful read, never a snapshot. -/
theorem no_replay_growth (c0 : List Nat) (cs : List (List Nat))
    (hchain : chainExtends c0 cs = true) :
    (FileReader.new (some c0)).pos = c0.length ∧
    readerTrace (FileReader.new (some c0)) (cs.map some) =
      growthDeltas c0.length cs ∧
    ∀ d : FileContent,
      Except.ok d ∈ readerTrace (FileReader.new (some c0)) (cs.map some) →
        d.is_truncated = false ∧
        ∃ c m, c ∈ cs ∧ c0.length ≤ m ∧ m ≤ c.length ∧
          d.content = processContent (c.drop m) := by
  have htrace := readerTrace_growth cs c0 (FileReader.new (some c0)) rfl hchain
  refine ⟨rfl, htrace, ?_⟩
  intro d hd
  rw [htrace] at hd
  exact growthDeltas_ok_mem c0.length cs c0 hchain (Nat.le_refl _) d hd

/-- C2 (witness): over the file `ab`, first observed unchanged, then with
a dangling UTF-8 lead byte appended (that pass fails and the cursor
stays), then with the sequence completed and a newline appended: the run
emits the empty delta, the I/O error, and then exactly the bytes appended
since the previous successful read. -/
theorem no_replay_growth_witness :
    chainExtends [97, 98] [[97, 98], [97, 98, 195], [97, 98, 195, 169, 10]] = true ∧
    readerTrace (FileReader.new (some [97, 98]))
        ([[97, 98], [97, 98, 195], [97, 98, 195, 169, 10]].map some) =
      growthDeltas ([97, 98] : List Nat).length
        [[97, 98], [97, 98, 195], [97, 98, 195, 169, 10]] :=
  ⟨by decide,
    (no_replay_growth [97, 98] [[97, 98], [97, 98, 195], [97, 98, 195, 169, 10]]
      (by decide)).2.1⟩

/-- C3: in an update pass that observes a file smaller than the stored
cursor, the cursor is reset to zero before reading, the pass emits a delta
with the truncation flag set whose text is the (normalized) file content
from offset 0, and the cursor ends at the new file size; in a pass that is
not a truncation, any emitted delta has the truncation flag clear. -/
theorem truncation_reset (r : FileReader) (c : List Nat) :
    (c.length < r.pos → validUtf8 c = true →
      r.update (some c) =
        ({ content := processContent c, pos := c.length },
         Except.ok { content := processContent c, is_truncated := true })) ∧
    (¬ c.length < r.pos →
      ∀ d : FileContent, (r.update (some c)).2 = Except.ok d →
        d.is_truncated = false) := by
  constructor
  · intro hlt hv
    exact update_eq_of_trunc r c hlt hv
  · intro hge d hd
    by_cases hv : validUtf8 (c.drop r.pos) = true
    · rw [update_eq_of_not_trunc r c (Nat.not_lt.mp hge) hv] at hd
      injection hd with h
      rw [← h]
    · rw [update_eq_of_not_trunc_invalid r c (Nat.not_lt.mp hge)
        (Bool.not_eq_true _ ▸ Bool.of_not_eq_true hv)] at hd
      exact Except.noConfusion hd

/-- C3 (witness): a reader with cursor 5 observing a two-byte file resets
and emits the whole new content with the truncation flag set. -/
theorem truncation_reset_witness :
    ([97, 10] : List Nat).length < (5 : Nat) ∧
    FileReader.update { content := [], pos := 5 } (some [97, 10]) =
      ({ content := [97, 10], pos := 2 },
       Except.ok { content := [97, 10], is_truncated := true }) :=
  ⟨by decide,
    (truncation_reset { content := [], pos := 5 } [97, 10]).1 (by decide) (by decide)⟩

/-- C4 (counterexample): scenario C as the spec states it fails on the
code.  A reader that has read a 2000-byte file to its end (cursor 2000)
observes the file truncated to 10 bytes with `abc` and a newline appended:
the emitted delta is truncated but its text is not `abc` plus newline — the
code seeks to offset 0 and re-reads the 10 retained bytes as well. -/
theorem scenario_c_counterexample :
    (FileReader.new (some (List.replicate 2000 97))).pos = 2000 ∧
    (FileReader.update (FileReader.new (some (List.replicate 2000 97)))
        (some (List.replicate 10 97 ++ [97, 98, 99, 10]))).2 ≠
      Except.ok { content := [97, 98, 99, 10], is_truncated := true } := by
  have h1 : FileReader.new (some (List.replicate 2000 97)) =
      { content := [], pos := 2000 } := by
    show ({ content := [], pos := (List.replicate 2000 97).length } : FileReader) = _
    rw [List.length_replicate]
  rw [h1]
  exact ⟨rfl, by decide⟩

/-- C4 (amended): in scenario C the next delta has the truncation flag set
and its text is the entire new file content — the 10 retained bytes
followed by `abc` and a newline. -/
theorem scenario_c_amended :
    (FileReader.update (FileReader.new (some (List.replicate 2000 97)))
        (some (List.replicate 10 97 ++ [97, 98, 99, 10]))).2 =
      Except.ok { content := List.replicate 10 97 ++ [97, 98, 99, 10],
                  is_truncated := true } := by
  have h1 : FileReader.new (some (List.replicate 2000 97)) =
      { content := [], pos := 2000 } := by
    show ({ content := [], pos := (List.replicate 2000 97).length } : FileReader) = _
    rw [List.length_replicate]
  rw [h1]
  decide

/-- C5 (counterexample): a read over bytes that are not valid UTF-8 does
not produce a delta with invalid sequences replaced — `read_to_string`
fails, so the pass sends an I/O error value instead. -/
theorem invalid_utf8_counterexample :
    (FileReader.update { content := [], pos := 0 } (some [255])).2 =
      Except.error () ∧
    validUtf8 [255] = false := by
  decide

/-- C5 (amended): in every non-truncating update pass the bytes from the
cursor to the current end of file are interpreted as strict UTF-8: when
they are valid, a delta with the normalized text is emitted and the cursor
advances by exactly the number of bytes read; when they are invalid, an
I/O error value is sent instead of a delta and the cursor does not
advance. -/
theorem read_utf8_semantics (r : FileReader) (c : List Nat)
    (hpos : r.pos ≤ c.length) :
    (validUtf8 (c.drop r.pos) = true →
      r.update (some c) =
        ({ content := processContent (c.drop r.pos),
           pos := r.pos + (c.drop r.pos).length },
         Except.ok { content := processContent (c.drop r.pos),
                     is_truncated := false })) ∧
    (validUtf8 (c.drop r.pos) = false →
      r.update (some c) = ({ content := [], pos := r.pos }, Except.error ())) :=
  ⟨update_eq_of_not_trunc r c hpos, update_eq_of_not_trunc_invalid r c hpos⟩

/-- C5 (witness): a reader with cursor 2 over a four-byte valid file reads
the last two bytes and advances the cursor to 4. -/
theorem read_utf8_semantics_witness :
    (({ content := [], pos := 2 } : FileReader)).pos ≤
      ([104, 105, 10, 33] : List Nat).length ∧
    FileReader.update { content := [], pos := 2 } (some [104, 105, 10, 33]) =
      ({ content := [10, 33], pos := 4 },
       Except.ok { content := [10, 33], is_truncated := false }) :=
  ⟨by decide,
    (read_utf8_semantics { content := [], pos := 2 } [104, 105, 10, 33]
      (by decide)).1 (by decide)⟩

/-- C6: `set_file_path` is idempotent with respect to the remembered value.
Requesting the currently remembered value sends no watch-request message;
consequently, two consecutive requests for a value different from the one
currently remembered send exactly one watch-request between them. -/
theorem set_file_path_idempotent (h : FileWatcherHandle) (x : Option String) :
    (h.file_path = x → (h.set_file_path x).2 = []) ∧
    (h.file_path ≠ x →
      (h.set_file_path x).2 ++ ((h.set_file_path x).1.set_file_path x).2 =
        [FileWatcherMessage.FilePath x]) := by
  constructor
  · intro he
    simp [FileWatcherHandle.set_file_path, he]
  · intro hne
    simp [FileWatcherHandle.set_file_path, hne]

/-- C6 (witness): from a fresh handle (nothing remembered), two consecutive
requests for one concrete path send exactly one watch-request. -/
theorem set_file_path_idempotent_witness :
    ({ file_path := none } : FileWatcherHandle).file_path ≠ some "a" ∧
    (FileWatcherHandle.set_file_path { file_path := none } (some "a")).2 ++
      ((FileWatcherHandle.set_file_path { file_path := none }
          (some "a")).1.set_file_path (some "a")).2 =
      [FileWatcherMessage.FilePath (some "a")] :=
  ⟨by decide,
    (set_file_path_idempotent { file_path := none } (some "a")).2 (by decide)⟩

/-- C7 (counterexample): an empty-string path is not treated like no path.
From a fresh handle, requesting the empty path sends a message while
requesting no path sends none; and the watcher handles the empty path
through the watch branch (here with the OS watch on the empty path
failing), not through the neutral-delta branch that no-path takes. -/
theorem empty_path_counterexample :
    FileWatcherHandle.set_file_path { file_path := none } (some "") ≠
      FileWatcherHandle.set_file_path { file_path := none } none ∧
    FileWatcher.handleFilePath { file_path := none } (fun _ => true)
        (fun _ => false) (some "") ≠
      FileWatcher.handleFilePath { file_path := none } (fun _ => true)
        (fun _ => false) none := by
  constructor
  · decide
  · decide

/-- C7 (amended): requesting no path makes the watcher emit the neutral
empty delta and spawn nothing, while requesting the empty-string path is
handled like any other path: whatever the OS watch outcome, the watcher
either spawns a reader for the empty path or emits a subscription error,
and never emits the neutral delta; the handle also forwards the
empty-string request as an ordinary watch-request. -/
theorem empty_path_amended (u w : String → Bool) :
    FileWatcher.handleFilePath { file_path := none } u w none =
      ({ file_path := none },
        [DownstreamMsg.delta { content := [], is_truncated := false }], []) ∧
    FileWatcher.handleFilePath { file_path := none } u w (some "") =
      (if w "" then ({ file_path := some "" }, [], [""])
       else ({ file_path := none }, [DownstreamMsg.watcherError], [])) ∧
    FileWatcherHandle.set_file_path { file_path := none } (some "") =
      ({ file_path := some "" }, [FileWatcherMessage.FilePath (some "")]) := by
  refine ⟨rfl, ?_, by decide⟩
  by_cases hw : w "" = true
  · simp [FileWatcher.handleFilePath, hw]
  · simp [FileWatcher.handleFilePath, hw]

/-- C8: an inaccessible file makes an update pass send an I/O error value
instead of a delta, leaving the cursor in place; the run keeps producing
exactly one message per pass (errors are not terminal), re-reports the
error on every pass while the file stays inaccessible, and once the file
appears with valid content the next pass emits a normal delta. -/
theorem io_error_recovery (r : FileReader) (f0 : FileState)
    (wakes : List FileState) (c : List Nat) (hv : validUtf8 c = true) :
    (readerRun r f0 wakes).length = wakes.length + 1 ∧
    r.update none = ({ r with content := [] }, Except.error ()) ∧
    (∀ n : Nat, readerRun r none (List.replicate n none) =
      List.replicate (n + 1) (Except.error ())) ∧
    readerRun (FileReader.new none) none [some c] =
      [Except.error (),
       Except.ok { content := processContent c, is_truncated := false }] := by
  refine ⟨?_, rfl, ?_, ?_⟩
  · exact readerTrace_length (f0 :: wakes) r
  · intro n
    have hrep : (none : FileState) :: List.replicate n none =
        List.replicate (n + 1) (none : FileState) := (List.replicate_succ _ _).symm
    calc readerRun r none (List.replicate n none)
        = readerTrace r (List.replicate (n + 1) none) := by rw [readerRun, hrep]
      _ = List.replicate (n + 1) (Except.error ()) := readerTrace_replicate_none _ r
  · have h1 : (FileReader.new none).update none =
        ({ content := [], pos := 0 }, Except.error ()) := rfl
    have h2 := update_eq_of_not_trunc { content := [], pos := 0 } c
      (Nat.zero_le _) (by simpa using hv)
    simp only [readerRun, readerTrace, h1, h2]
    simp [List.drop_zero]

/-- C8 (witness): a reader created against a missing file reports an I/O
error on its first pass and, once the file exists holding `hello` and a
newline, emits that text as a normal delta on the next pass. -/
theorem io_error_recovery_witness :
    validUtf8 [104, 101, 108, 108, 111, 10] = true ∧
    readerRun (FileReader.new none) none [some [104, 101, 108, 108, 111, 10]] =
      [Except.error (),
       Except.ok { content := [104, 101, 108, 108, 111, 10], is_truncated := false }] :=
  ⟨by decide,
    (io_error_recovery { content := [], pos := 0 } none []
      [104, 101, 108, 108, 111, 10] (by decide)).2.2.2⟩

/-- C10: the first message of every reader run is produced by the initial
update pass, performed on thread start before blocking on any wake or
poll timeout (it does not depend on the wakes); in particular a reader
spawned on an accessible file that does not change emits exactly the
neutral delta with empty text and a clear truncation flag. -/
theorem initial_update_pass (r : FileReader) (f0 : FileState)
    (wakes : List FileState) (c : List Nat) :
    (readerRun r f0 wakes).head? = some (r.update f0).2 ∧
    readerRun (FileReader.new (some c)) (some c) [] =
      [Except.ok { content := [], is_truncated := false }] := by
  constructor
  · rfl
  · have hpos : (FileReader.new (some c)).pos ≤ c.length := Nat.le_refl _
    have hv : validUtf8 (c.drop (FileReader.new (some c)).pos) = true := by
      have : c.drop (FileReader.new (some c)).pos = [] := List.drop_length c
      rw [this]
      decide
    have h := update_eq_of_not_trunc (FileReader.new (some c)) c hpos hv
    simp only [readerRun, readerTrace, h]
    have hd : c.drop (FileReader.new (some c)).pos = [] := List.drop_length c
    simp [hd, processContent_nil]

end Slurmer
